import Mathlib

/-!
Verification of the DDRecorder core against its specification.

Each section shallowly embeds one part of the source:
filesystem retention sweep (cleanup.py), upload failure marker protocol
(utils.py, runner.py), the room supervisor cycle (runner.py), the stream
capture loop (recorder.py), the artifact pipeline (processor.py), subtitle
rendering (danmaku_ass.py) and chat capture filtering (danmurecorder.py).
-/

namespace DDRec

/-! ### Retention sweep (src/ddrecorder/cleanup.py, src/ddrecorder/utils.py)

A directory tree is a forest of named directories; each directory holds a
list of plain files (name, mtime) and a child forest.  `purgeForest` models
one pass of `_purge_path` run by `os.walk(target, topdown=False)`: children
are processed before their parent; a directory whose own file list holds the
marker file `.upload_failed` is skipped (none of its direct files deleted, no
rmdir of its children); otherwise files older than the threshold are deleted
(the marker name always kept) and child directories that are empty and do
not carry the marker are removed. -/

structure Entry where
  name : String
  mtime : Int
  deriving DecidableEq

def UPLOAD_FAILED_MARK : String := ".upload_failed"

inductive FS where
  | nil : FS
  | dir (name : String) (files : List Entry) (children : FS) (rest : FS) : FS
  deriving DecidableEq

/-- The check `has_upload_failed_marker` on a directory content: the marker file exists
directly inside it. -/
def hasMarkerFiles (files : List Entry) : Bool :=
  files.any (fun f => decide (f.name = UPLOAD_FAILED_MARK))

/-- The files surviving the file loop of `_purge_path` in an unmarked
directory: the marker name is never unlinked, files at or above the
threshold mtime stay. -/
def keepFiles (threshold : Int) (files : List Entry) : List Entry :=
  files.filter (fun f => decide (f.name = UPLOAD_FAILED_MARK) || !(decide (f.mtime < threshold)))

def FS.isNil : FS → Bool
  | .nil => true
  | .dir _ _ _ _ => false

/-- Python `not any(dir_path.iterdir())`: no direct files and no subdirectories. -/
def dirIsEmpty (files : List Entry) (children : FS) : Bool :=
  files.isEmpty && children.isNil

/-- The rmdir loop of `_purge_path` over the children of an unmarked parent:
a child carrying the marker is skipped, an empty child is removed. -/
def dropEmpty : FS → FS
  | .nil => .nil
  | .dir n fs ch rest =>
    if hasMarkerFiles fs then .dir n fs ch (dropEmpty rest)
    else if dirIsEmpty fs ch then dropEmpty rest
    else .dir n fs ch (dropEmpty rest)

/-- Bottom-up sweep over a forest: each directory's children are purged
first (they are visited as their own `os.walk` roots), then the directory's
own file loop and rmdir loop run unless it carries the marker. -/
def purgeForest (threshold : Int) : FS → FS
  | .nil => .nil
  | .dir n fs ch rest =>
    let ch2 := purgeForest threshold ch
    if hasMarkerFiles fs then .dir n fs ch2 (purgeForest threshold rest)
    else .dir n (keepFiles threshold fs) (dropEmpty ch2) (purgeForest threshold rest)

/-- The run of `_purge_path` at the walk's top root (the target directory itself):
children first, then the root's own file loop and rmdir loop unless the
root carries the marker. -/
def purge_path (threshold : Int) (files : List Entry) (children : FS) : List Entry × FS :=
  let ch2 := purgeForest threshold children
  if hasMarkerFiles files then (files, ch2)
  else (keepFiles threshold files, dropEmpty ch2)

def lookupFS : FS → String → Option (List Entry × FS)
  | .nil, _ => none
  | .dir n fs ch rest, target => if n = target then some (fs, ch) else lookupFS rest target

/-- Navigate from a directory (files, children) along a path of names. -/
def dirAt : List Entry × FS → List String → Option (List Entry × FS)
  | d, [] => some d
  | d, n :: rest =>
    match lookupFS d.2 n with
    | none => none
    | some d2 => dirAt d2 rest

def fileExistsAt (d : List Entry × FS) (p : List String) (fname : String) : Bool :=
  match dirAt d p with
  | some d2 => d2.1.any (fun f => decide (f.name = fname))
  | none => false

def markerAt (d : List Entry × FS) (p : List String) : Bool :=
  fileExistsAt d p UPLOAD_FAILED_MARK

theorem purgeForest_dir (threshold : Int) (n : String) (fs : List Entry) (ch rest : FS) :
    purgeForest threshold (.dir n fs ch rest) =
      .dir n (purge_path threshold fs ch).1 (purge_path threshold fs ch).2
        (purgeForest threshold rest) := by
  by_cases h : hasMarkerFiles fs = true
  · simp [purgeForest, purge_path, h]
  · simp [purgeForest, purge_path, h]

theorem lookup_purgeForest (threshold : Int) :
    ∀ (f : FS) (n : String),
      lookupFS (purgeForest threshold f) n =
        (lookupFS f n).map (fun d => purge_path threshold d.1 d.2) := by
  intro f
  induction f with
  | nil => intro n; simp [purgeForest, lookupFS]
  | dir n0 fs ch rest ihch ihrest =>
    intro n
    rw [purgeForest_dir]
    by_cases h : n0 = n
    · simp [lookupFS, h]
    · simp [lookupFS, h, ihrest]

theorem lookup_dropEmpty :
    ∀ (f : FS) (n : String) (d : List Entry × FS),
      lookupFS f n = some d →
      (hasMarkerFiles d.1 = true ∨ dirIsEmpty d.1 d.2 = false) →
      lookupFS (dropEmpty f) n = some d := by
  intro f
  induction f with
  | nil => intro n d h _; simp [lookupFS] at h
  | dir n0 fs ch rest ihch ihrest =>
    intro n d h hkeep
    by_cases hn : n0 = n
    · subst hn
      have h2 : (fs, ch) = d := by simpa [lookupFS] using h
      cases h2
      rcases hkeep with hm | hne
      · simp only at hm
        simp [dropEmpty, hm, lookupFS]
      · simp only at hne
        by_cases hm : hasMarkerFiles fs = true
        · simp [dropEmpty, hm, lookupFS]
        · simp [dropEmpty, hm, hne, lookupFS]
    · have h' : lookupFS rest n = some d := by
        simpa [lookupFS, hn] using h
      by_cases hm : hasMarkerFiles fs = true
      · simpa [dropEmpty, hm, lookupFS, hn] using ihrest n d h' hkeep
      · by_cases hde : dirIsEmpty fs ch = true
        · simpa [dropEmpty, hm, hde] using ihrest n d h' hkeep
        · simp only [Bool.not_eq_true] at hde
          simpa [dropEmpty, hm, hde, lookupFS, hn] using ihrest n d h' hkeep

theorem dirAt_cons_isNil_false (d : List Entry × FS) (n : String) (rest : List String)
    (u : List Entry × FS) (h : dirAt d (n :: rest) = some u) : d.2.isNil = false := by
  cases hf : d.2 with
  | nil => rw [dirAt, hf] at h; simp [lookupFS] at h
  | dir _ _ _ _ => simp [FS.isNil]

theorem dirAt_nil_eq (d u : List Entry × FS) (h : dirAt d [] = some u) : d = u := by
  simpa [dirAt] using h

/-- Claim C1 (amended): a directory that itself carries the failure marker
survives the retention sweep with its direct file list unchanged (the marker
and every direct file, however old, untouched) and with the purge descending
into its children only through the normal child passes: its entry in the
swept tree is exactly (its files, its children purged as their own walk
roots).  In particular none of its direct files and none of its immediate
subdirectories is removed; strictly deeper unmarked descendants are swept
normally. -/
theorem purge_preserves_marked_dir (threshold : Int) :
    ∀ (p : List String) (d u : List Entry × FS),
      dirAt d p = some u → hasMarkerFiles u.1 = true →
      dirAt (purge_path threshold d.1 d.2) p = some (u.1, purgeForest threshold u.2) := by
  intro p
  induction p with
  | nil =>
    intro d u h hmark
    cases dirAt_nil_eq d u h
    simp [purge_path, hmark, dirAt]
  | cons n rest ih =>
    intro d u h hmark
    have hstep : ∃ d1, lookupFS d.2 n = some d1 ∧ dirAt d1 rest = some u := by
      rw [dirAt] at h
      cases hl : lookupFS d.2 n with
      | none => rw [hl] at h; exact absurd h (by simp)
      | some d1 => exact ⟨d1, rfl, by rw [hl] at h; exact h⟩
    rcases hstep with ⟨d1, hl, hrest⟩
    have ih1 := ih d1 u hrest hmark
    have hlp : lookupFS (purgeForest threshold d.2) n =
        some (purge_path threshold d1.1 d1.2) := by
      rw [lookup_purgeForest, hl]; rfl
    have hkeep : hasMarkerFiles (purge_path threshold d1.1 d1.2).1 = true ∨
        dirIsEmpty (purge_path threshold d1.1 d1.2).1 (purge_path threshold d1.1 d1.2).2
          = false := by
      cases rest with
      | nil =>
        have he : d1 = u := dirAt_nil_eq d1 u hrest
        subst he
        left
        simp [purge_path, hmark]
      | cons r rs =>
        have hnil := dirAt_cons_isNil_false _ r rs _ ih1
        right
        simp [dirIsEmpty, hnil]
    by_cases hm : hasMarkerFiles d.1 = true
    · rw [purge_path]
      simp only [hm, if_pos]
      rw [dirAt]
      simp only [hlp]
      exact ih1
    · rw [purge_path]
      simp only [hm, if_neg, Bool.false_eq_true, not_false_iff]
      rw [dirAt]
      simp only [lookup_dropEmpty _ n _ hlp hkeep]
      exact ih1

/-! ### Upload failure marker protocol (src/ddrecorder/utils.py, runner.py)

The marker file of a splits directory is modelled as `Option String`:
`none` = absent, `some content` = present with that content.
`mark_upload_failed` writes "failed_at=<timestamp> reason=<reason>";
`clear_upload_failed` unlinks the marker if present. -/

def markerContent (now reason : String) : String :=
  "failed_at=" ++ now ++ " reason=" ++ reason

def mark_upload_failed (now reason : String) : Option String :=
  some (markerContent now reason)

def clear_upload_failed (_marker : Option String) : Option String :=
  none

/-- States of `RunnerState` (src/ddrecorder/state.py). -/
inductive RunnerState where
  | IDLE | RECORDING | PROCESSING | UPLOADING | ERROR
  deriving DecidableEq, Repr

/-- Model of `RoomRunner._upload_with_retry`: one attempt, then on failure a fixed
delay (the runner is set back to IDLE while sleeping) and exactly one retry.
`r1`, `r2` are the outcomes `_do_upload` would return on the first and
second attempt.  Result: (upload_success, marker afterwards, the sequence of
set_state requests issued inside the call). -/
def upload_with_retry (r1 r2 : Bool) (marker : Option String) (now : String) :
    Bool × Option String × List RunnerState :=
  if r1 then (true, clear_upload_failed marker, [.UPLOADING])
  else if r2 then (true, clear_upload_failed marker, [.UPLOADING, .IDLE, .UPLOADING])
  else (false, mark_upload_failed now "upload_failed_after_retry",
    [.UPLOADING, .IDLE, .UPLOADING])

/-! ### Room supervisor cycle (src/ddrecorder/runner.py, RoomRunner.run)

One iteration of the while-loop, driven by an oracle fixing the outcome of
each collaborator call.  `requests` is the sequence of `set_state` calls the
iteration issues (in order), `sessionCreated` whether any session directory
is created (`ensure_session_dirs` inside `recorder.record`, or the chat
recorder's output dir), and `marker` the splits-directory marker
afterwards. -/

inductive Refresh where
  | fail
  | ok (isLive : Bool)
  deriving DecidableEq

structure CycleOracle where
  refresh : Refresh
  recordFrags : List Nat
  processOk : Bool
  uploadRecord : Bool
  splitRaises : Bool
  splitOut : List Nat
  upload1 : Bool
  upload2 : Bool

structure CycleRes where
  requests : List RunnerState
  sessionCreated : Bool
  marker : Option String
  deriving DecidableEq

def runCycle (o : CycleOracle) (marker : Option String) (now : String) : CycleRes :=
  match o.refresh with
  | .fail => ⟨[], false, marker⟩
  | .ok false => ⟨[.IDLE], false, marker⟩
  | .ok true =>
    if o.recordFrags.isEmpty then ⟨[.RECORDING, .ERROR], true, marker⟩
    else if !o.processOk then ⟨[.RECORDING, .PROCESSING, .ERROR], true, marker⟩
    else if !o.uploadRecord then ⟨[.RECORDING, .PROCESSING, .IDLE], true, marker⟩
    else if o.splitRaises then ⟨[.RECORDING, .PROCESSING, .ERROR], true, marker⟩
    else if o.splitOut.isEmpty then ⟨[.RECORDING, .PROCESSING, .ERROR], true, marker⟩
    else
      let up := upload_with_retry o.upload1 o.upload2 marker now
      ⟨[.RECORDING, .PROCESSING] ++ up.2.2 ++ [if up.1 then .IDLE else .ERROR],
        true, up.2.1⟩

/-- State of `RoomRunner.set_state` (src/ddrecorder/runner.py lines 42-47):
current state plus the entry timestamp `state_since`. -/
structure RunnerData where
  state : RunnerState
  state_since : Nat
  deriving DecidableEq

def set_state (r : RunnerData) (s : RunnerState) (now : Nat) : RunnerData :=
  if r.state = s then r else ⟨s, now⟩

/-! ### Stream capture loop (src/ddrecorder/recorder.py, LiveRecorder.record)

One loop iteration either obtains no stream URL, downloads a fragment
successfully, fails transiently (HTTP error / network error / empty body:
`_download` returns False and the loop continues), or hits an OSError while
writing the fragment file, which `record` catches by clearing the
accumulated fragment list and breaking out.  The event list is the sequence
of iteration outcomes until the room goes offline. -/

inductive IterEvent where
  | noUrl
  | okFrag
  | transientFail
  | writeError
  deriving DecidableEq

/-- The fragment-accumulating loop; fragments are named by the iteration
counter standing for the wall-clock capture time. -/
def recordGo : List IterEvent → List Nat → Nat → List Nat
  | [], frags, _ => frags
  | .noUrl :: rest, frags, t => recordGo rest frags (t + 1)
  | .okFrag :: rest, frags, t => recordGo rest (frags ++ [t]) (t + 1)
  | .transientFail :: rest, frags, t => recordGo rest frags (t + 1)
  | .writeError :: _, _, _ => []

/-- Model of `record`: returns the RecordingResult fragment list, or none when no
fragment survived. -/
def record (events : List IterEvent) : Option (List Nat) :=
  let frags := recordGo events [] 0
  if frags.isEmpty then none else some frags

theorem recordGo_writeError_mem :
    ∀ (events : List IterEvent) (frags : List Nat) (t : Nat),
      IterEvent.writeError ∈ events → recordGo events frags t = [] := by
  intro events
  induction events with
  | nil => intro frags t h; simp at h
  | cons e rest ih =>
    intro frags t h
    cases e with
    | noUrl =>
      have : IterEvent.writeError ∈ rest := by simpa using h
      simpa [recordGo] using ih frags (t + 1) this
    | okFrag =>
      have : IterEvent.writeError ∈ rest := by simpa using h
      simpa [recordGo] using ih (frags ++ [t]) (t + 1) this
    | transientFail =>
      have : IterEvent.writeError ∈ rest := by simpa using h
      simpa [recordGo] using ih frags (t + 1) this
    | writeError => simp [recordGo]

theorem recordGo_accum :
    ∀ (events : List IterEvent) (frags : List Nat) (t : Nat),
      IterEvent.writeError ∉ events →
      recordGo events frags t = frags ++ recordGo events [] t := by
  intro events
  induction events with
  | nil => intro frags t _; simp [recordGo]
  | cons e rest ih =>
    intro frags t h
    have hrest : IterEvent.writeError ∉ rest := fun hr => h (List.mem_cons_of_mem _ hr)
    cases e with
    | noUrl =>
      simp only [recordGo]
      exact ih _ _ hrest
    | okFrag =>
      simp only [recordGo, List.nil_append]
      rw [ih (frags ++ [t]) (t + 1) hrest, ih [t] (t + 1) hrest]
      simp [List.append_assoc]
    | transientFail =>
      simp only [recordGo]
      exact ih _ _ hrest
    | writeError => exact absurd (List.mem_cons_self _ _) h

theorem recordGo_append :
    ∀ (pre post : List IterEvent) (frags : List Nat) (t : Nat),
      recordGo (pre ++ post) frags t = recordGo post (recordGo pre frags t) (t + pre.length)
      ∨ recordGo (pre ++ post) frags t = [] := by
  intro pre
  induction pre with
  | nil => intro post frags t; left; simp [recordGo]
  | cons e rest ih =>
    intro post frags t
    have harith : t + 1 + rest.length = t + (rest.length + 1) := by omega
    cases e with
    | noUrl =>
      simp only [List.cons_append, recordGo, List.length_cons, List.append_eq]
      rcases ih post frags (t + 1) with h | h
      · left; rw [h, harith]
      · right; exact h
    | okFrag =>
      simp only [List.cons_append, recordGo, List.length_cons, List.append_eq]
      rcases ih post (frags ++ [t]) (t + 1) with h | h
      · left; rw [h, harith]
      · right; exact h
    | transientFail =>
      simp only [List.cons_append, recordGo, List.length_cons, List.append_eq]
      rcases ih post frags (t + 1) with h | h
      · left; rw [h, harith]
      · right; exact h
    | writeError => right; rw [List.cons_append, recordGo]

/-! ### Artifact pipeline (src/ddrecorder/processor.py)

`RecordingProcessor.run` attempts the transmux + concat sequence up to 3
times.  `_transmux_fragments` keeps only fragments of size at least
1_048_576 bytes whose individual ffmpeg transmux command succeeds.
`split` probes the merged file's duration and extracts
`int(duration // split_interval) + 1` parts by seek-and-copy, each part
index zero-padded to width 4, part i starting at offset i * interval; a
failed individual extraction is omitted. -/

def MIN_FRAGMENT_SIZE : Nat := 1048576

structure Frag where
  size : Nat
  transmuxOk : Bool
  deriving DecidableEq

/-- Model of `_transmux_fragments`: the list of TS files produced, one per fragment
that passes the size gate and whose transmux command succeeds. -/
def transmux_fragments (frags : List Frag) : List Frag :=
  frags.filter (fun f => decide (MIN_FRAGMENT_SIZE ≤ f.size) && f.transmuxOk)

/-- The attempt loop of `run`, with `n` attempts remaining.  `concatOk k`
is the outcome of the k-th concat invocation (counted from 0); the result
is (ProcessResult?, total concat invocations, attempts used). -/
def runAttempts : Nat → List Frag → (Nat → Bool) → Nat → Nat → (Option Unit × Nat × Nat)
  | 0, _, _, calls, used => (none, calls, used)
  | n + 1, frags, concatOk, calls, used =>
    let ts := transmux_fragments frags
    if ts.isEmpty then runAttempts n frags concatOk calls (used + 1)
    else if concatOk calls then (some (), calls + 1, used + 1)
    else runAttempts n frags concatOk (calls + 1) (used + 1)

/-- Model of `RecordingProcessor.run`: up to 3 attempts of the full sequence. -/
def processorRun (frags : List Frag) (concatOk : Nat → Bool) : Option Unit × Nat × Nat :=
  runAttempts 3 frags concatOk 0 0

def zeroPad4 (n : Nat) : String :=
  let s := toString n
  if s.length < 4 then String.mk (List.replicate (4 - s.length) '0') ++ s else s

structure Part where
  index : Nat
  start : Int
  name : String
  deriving DecidableEq

def partName (slug : String) (i : Nat) : String :=
  slug ++ "_" ++ zeroPad4 i ++ ".mp4"

/-- Model of `RecordingProcessor.split`: `duration` is the probed duration of the
merged file (a positive float, modelled as a rational), `cmdOk i` whether
the extraction command of part i succeeds.  With `split_interval ≤ 0` the
merged file is copied verbatim as the single part 0. -/
def split (slug : String) (duration : ℚ) (split_interval : Int) (cmdOk : Nat → Bool) :
    List Part :=
  if split_interval ≤ 0 then [⟨0, 0, partName slug 0⟩]
  else
    let num_splits := (⌊duration / (split_interval : ℚ)⌋).toNat + 1
    (List.range num_splits).filterMap (fun i =>
      if cmdOk i then some ⟨i, (i : Int) * split_interval, partName slug i⟩ else none)

/-! ### Subtitle rendering (src/ddrecorder/danmaku_ass.py, jsonl_to_ass)

A chat-log line is either unusable (blank, or not JSON) or a decoded
payload with a type, a text and an optional numeric timestamp (`none`
models a missing or non-numeric "time" field).  Timestamps and the session
start are milliseconds, modelled as rationals since offsets are divided by
1000. -/

inductive JsonLine where
  | invalid
  | payload (type : String) (text : String) (time : Option ℚ)

structure DanmuAssCfg where
  play_res_x : Int
  play_res_y : Int
  font : String
  font_size : Int
  duration : ℚ
  row_count : Int
  line_height : Int
  margin_top : Int
  scroll_end : Int

/-- Python `text.replace("\x7b", "（").replace("\x7d", "）")`. -/
def escapeAss (text : String) : String :=
  (text.replace "\x7b" "（").replace "\x7d" "）"

/-- One line of the record-collection loop: skip unusable lines, skip
non-danmaku payloads, strip the text and skip empty ones, skip missing
timestamps, clamp the session-relative offset at 0. -/
def parseLine (session_ms : ℚ) (l : JsonLine) : Option (ℚ × String) :=
  match l with
  | .invalid => none
  | .payload type text time =>
    if type ≠ "danmaku" then none
    else
      let text := text.trim
      if text = "" then none
      else
        match time with
        | none => none
        | some t =>
          let offset := (t - session_ms) / 1000
          some (if offset < 0 then 0 else offset, text)

def parseRecords (lines : List JsonLine) (session_ms : ℚ) : List (ℚ × String) :=
  lines.filterMap (parseLine session_ms)

/-- A record is kept exactly when it has the danmaku type, a non-empty
stripped text and a numeric timestamp. -/
def validLine (l : JsonLine) : Bool :=
  match l with
  | .payload type text (some _) => decide (type = "danmaku") && !(decide (text.trim = ""))
  | _ => false

structure Dialogue where
  start : ℚ
  stop : ℚ
  row : Int
  y : Int
  text : String

def mkDialogue (style : DanmuAssCfg) (idx : Nat) (r : ℚ × String) : Dialogue :=
  let row : Int := (idx : Int) % (max style.row_count 1)
  { start := r.1
    stop := r.1 + style.duration
    row := row
    y := style.margin_top + row * style.line_height
    text := escapeAss r.2 }

/-- The emission loop `for idx, (start, text) in enumerate(records)`. -/
def dialoguesFrom (style : DanmuAssCfg) : Nat → List (ℚ × String) → List Dialogue
  | _, [] => []
  | i, r :: rest => mkDialogue style i r :: dialoguesFrom style (i + 1) rest

/-- The records sorted ascending by offset (`records.sort(key=offset)` is a
stable sort) and rendered in emission order. -/
def renderedDialogues (lines : List JsonLine) (session_ms : ℚ) (style : DanmuAssCfg) :
    List Dialogue :=
  dialoguesFrom style 0
    ((parseRecords lines session_ms).mergeSort (fun a b => decide (a.1 ≤ b.1)))

/-- Model of `jsonl_to_ass`: returns none (and writes nothing) when no record
survives the collection loop, otherwise the emitted dialogue list (the
written file is the constant non-empty header followed by one Dialogue
line per record). -/
def jsonl_to_ass (lines : List JsonLine) (session_ms : ℚ) (style : DanmuAssCfg) :
    Option (List Dialogue) :=
  if (parseRecords lines session_ms).isEmpty then none
  else some (renderedDialogues lines session_ms style)

/-! ### Chat capture filtering (src/ddrecorder/danmurecorder.py)

`_EMOJI_PATTERN = [\U0001F300-\U0001FAFF\U00002700-\U000027BF]` and
`_handle_payload` drops a decoded message when `msg_type` is not
"danmaku" or when `_EMOJI_PATTERN.search(text)` finds any character of
those ranges anywhere in the text; every kept message is appended as one
record. -/

def emojiChar (c : Char) : Bool :=
  (decide (0x1F300 ≤ c.toNat) && decide (c.toNat ≤ 0x1FAFF)) ||
  (decide (0x2700 ≤ c.toNat) && decide (c.toNat ≤ 0x27BF))

/-- True when `_EMOJI_PATTERN.search(text)` succeeds. -/
def containsEmoji (text : String) : Bool :=
  text.data.any emojiChar

structure DecodedMsg where
  msg_type : String
  content : String
  uid : String
  name : String
  raw_uid : Option String
  raw_name : Option String
  deriving DecidableEq

structure ChatRecord where
  type : String
  text : String
  time : Int
  uid : String
  uname : String
  deriving DecidableEq

/-- The enrichment of `_handle_payload`: the identity parsed from the raw
payload overrides the decoder's when present and non-empty (Python
truthiness of the extracted strings). -/
def enrich (base : String) (extracted : Option String) : String :=
  match extracted with
  | some e => if e = "" then base else e
  | none => base

def mkChatRecord (now_ms : Int) (m : DecodedMsg) : ChatRecord :=
  { type := "danmaku"
    text := m.content
    time := now_ms
    uid := enrich m.uid m.raw_uid
    uname := enrich m.name m.raw_name }

/-- Model of `_handle_payload` over one decoded frame's message list: the records
appended to the chat log, in order, one per kept message. -/
def handle_payload (msgs : List DecodedMsg) (now_ms : Int) : List ChatRecord :=
  msgs.filterMap (fun m =>
    if m.msg_type ≠ "danmaku" then none
    else if containsEmoji m.content then none
    else some (mkChatRecord now_ms m))

/-! ### Claim theorems -/

/-- A target tree for the sweep: the (unmarked) walk target contains a
directory M carrying the failure marker, and M contains an unmarked
subdirectory S holding a file older than any threshold. -/
def cleanupExample : List Entry × FS :=
  ([], FS.dir "M" [⟨UPLOAD_FAILED_MARK, 0⟩]
    (FS.dir "S" [⟨"old.mp4", 0⟩] FS.nil FS.nil) FS.nil)

/-- The directory M of `cleanupExample`: marker file plus subdirectory S. -/
def markedDirExample : List Entry × FS :=
  ([⟨UPLOAD_FAILED_MARK, 0⟩], FS.dir "S" [⟨"old.mp4", 0⟩] FS.nil FS.nil)

/-- Claim C1 is false as stated: M carries the failure marker and the file
old.mp4 lies beneath M (inside M/S), yet the sweep with threshold 100
deletes it, because the walk visits M/S as its own root and M/S itself
carries no marker. -/
theorem purge_deletes_file_under_marked_dir :
    markerAt cleanupExample ["M"] = true ∧
    fileExistsAt cleanupExample ["M", "S"] "old.mp4" = true ∧
    fileExistsAt (purge_path 100 cleanupExample.1 cleanupExample.2) ["M", "S"] "old.mp4"
      = false := by
  refine ⟨by decide, by decide, by decide⟩

/-- Witness for C1 (amended), at the concrete tree `cleanupExample`: the
marked directory M survives the sweep with its direct files intact and its
child S still present (S itself swept as a walk root). -/
theorem purge_preserves_marked_dir_witness :
    dirAt (purge_path 100 cleanupExample.1 cleanupExample.2) ["M"]
      = some (markedDirExample.1, purgeForest 100 markedDirExample.2) :=
  purge_preserves_marked_dir 100 ["M"] cleanupExample markedDirExample
    (by decide) (by decide)

/-- Claim C2: in `_upload_with_retry`, when either the first attempt or the
single delayed retry succeeds the failure marker of the session's splits
directory is cleared (absent afterwards); when both attempts fail the call
returns failure and the marker is present with a content carrying the
non-empty reason string. -/
theorem upload_with_retry_marker :
    ∀ (r1 r2 : Bool) (marker : Option String) (now : String),
      ((r1 || r2) = true →
        (upload_with_retry r1 r2 marker now).1 = true ∧
        (upload_with_retry r1 r2 marker now).2.1 = none) ∧
      (r1 = false → r2 = false →
        (upload_with_retry r1 r2 marker now).1 = false ∧
        ∃ reason, reason ≠ "" ∧
          (upload_with_retry r1 r2 marker now).2.1 = some (markerContent now reason)) := by
  intro r1 r2 marker now
  cases r1 <;> cases r2 <;>
    simp [upload_with_retry, clear_upload_failed, mark_upload_failed] <;>
    exact ⟨"upload_failed_after_retry", by simp, rfl⟩

theorem recordGo_append_no_err :
    ∀ (pre post : List IterEvent) (frags : List Nat) (t : Nat),
      IterEvent.writeError ∉ pre →
      recordGo (pre ++ post) frags t = recordGo post (recordGo pre frags t) (t + pre.length) := by
  intro pre
  induction pre with
  | nil => intro post frags t _; simp [recordGo]
  | cons e rest ih =>
    intro post frags t h
    have hrest : IterEvent.writeError ∉ rest := fun hr => h (List.mem_cons_of_mem _ hr)
    have harith : t + 1 + rest.length = t + (rest.length + 1) := by omega
    cases e with
    | noUrl =>
      simp only [List.cons_append, recordGo, List.length_cons, List.append_eq]
      rw [ih post frags (t + 1) hrest, harith]
    | okFrag =>
      simp only [List.cons_append, recordGo, List.length_cons, List.append_eq]
      rw [ih post (frags ++ [t]) (t + 1) hrest, harith]
    | transientFail =>
      simp only [List.cons_append, recordGo, List.length_cons, List.append_eq]
      rw [ih post frags (t + 1) hrest, harith]
    | writeError => exact absurd (List.mem_cons_self _ _) h

/-- Claim C4: a local storage write failure (OSError while writing a
fragment) aborts the whole capture pass, discards every fragment captured
so far and makes record() return none; a transient network or HTTP or
timeout failure neither terminates the loop (the events after it still
run) nor discards any fragment captured before it (they stay as the
leading part of the final fragment list). -/
theorem record_failure_modes :
    ∀ (events pre post : List IterEvent),
      (IterEvent.writeError ∈ events → record events = none) ∧
      (IterEvent.writeError ∉ pre → IterEvent.writeError ∉ post →
        recordGo (pre ++ IterEvent.transientFail :: post) [] 0 =
          recordGo pre [] 0 ++ recordGo post [] (pre.length + 1)) := by
  intro events pre post
  constructor
  · intro h
    rw [record]
    simp [recordGo_writeError_mem events [] 0 h]
  · intro hpre hpost
    rw [recordGo_append_no_err pre (IterEvent.transientFail :: post) [] 0 hpre]
    rw [recordGo]
    rw [recordGo_accum post (recordGo pre [] 0) (0 + pre.length + 1) hpost]
    simp [Nat.add_comm]

/-- Claim C5: when every fragment is below the minimum-size threshold
(1 MiB), `run()` exhausts its 3 attempts, never invokes the concat step,
and returns none. -/
theorem pipeline_all_small_fragments (frags : List Frag) (concatOk : Nat → Bool)
    (hsmall : ∀ f ∈ frags, f.size < MIN_FRAGMENT_SIZE) :
    processorRun frags concatOk = (none, 0, 3) := by
  have hts : transmux_fragments frags = [] := by
    rw [transmux_fragments, List.filter_eq_nil_iff]
    intro f hf
    have := hsmall f hf
    simp [Nat.not_le.2 this]
  simp [processorRun, runAttempts, hts]

/-- Witness for C5 at a concrete fragment list in which every fragment is
under 1 MiB. -/
theorem pipeline_all_small_fragments_witness :
    (∀ f ∈ [Frag.mk 100 true, Frag.mk 0 false], f.size < MIN_FRAGMENT_SIZE) ∧
    processorRun [Frag.mk 100 true, Frag.mk 0 false] (fun _ => true) = (none, 0, 3) :=
  ⟨by decide, pipeline_all_small_fragments _ (fun _ => true) (by decide)⟩

/-- Claim C8: a supervisor cycle in which the refreshed status reports
is_live = false issues exactly one set_state request, to IDLE (so the
runner never leaves IDLE during the cycle), creates no session directory
and leaves the failure marker untouched. -/
theorem not_live_cycle_idle :
    ∀ (o : CycleOracle) (marker : Option String) (now : String),
      o.refresh = Refresh.ok false →
      (runCycle o marker now).requests = [RunnerState.IDLE] ∧
      (runCycle o marker now).sessionCreated = false ∧
      (runCycle o marker now).marker = marker := by
  intro o marker now h
  simp [runCycle, h]

/-- Witness for C8 at a concrete oracle observing a non-live room. -/
theorem not_live_cycle_idle_witness :
    (runCycle ⟨Refresh.ok false, [7], true, true, false, [1], true, true⟩ none "t").requests
        = [RunnerState.IDLE] ∧
    (runCycle ⟨Refresh.ok false, [7], true, true, false, [1], true, true⟩ none "t").sessionCreated
        = false ∧
    (runCycle ⟨Refresh.ok false, [7], true, true, false, [1], true, true⟩ none "t").marker
        = none :=
  not_live_cycle_idle ⟨Refresh.ok false, [7], true, true, false, [1], true, true⟩ none "t" rfl

/-- A decoded chat message whose text mixes ordinary characters with one
emoji codepoint (U+1F600, inside the pattern's first range). -/
def mixedEmojiMsg : DecodedMsg :=
  { msg_type := "danmaku"
    content := String.mk ['h', 'i', Char.ofNat 0x1F600]
    uid := "1"
    name := "alice"
    raw_uid := none
    raw_name := none }

/-- Claim C9 is false as stated: this danmaku message has non-empty text
beyond pure emoji (the characters h and i are not emoji), so the claim says
it is appended, yet `_handle_payload` drops it because the emoji pattern
matches anywhere in the text. -/
theorem mixed_emoji_message_dropped :
    mixedEmojiMsg.msg_type = "danmaku" ∧
    mixedEmojiMsg.content.data.any (fun c => !emojiChar c) = true ∧
    handle_payload [mixedEmojiMsg] 5 = [] := by
  refine ⟨rfl, by decide, by decide⟩

/-- Claim C9 (amended): the chat capture loop appends exactly the decoded
danmaku-kind messages whose text contains no character of the emoji
pattern's ranges, one record per kept message in arrival order; any message
containing at least one emoji character anywhere in its text is discarded
(in particular every pure-emoji-only message). -/
theorem handle_payload_drops_any_emoji :
    ∀ (msgs : List DecodedMsg) (now_ms : Int),
      handle_payload msgs now_ms =
        (msgs.filter (fun m => decide (m.msg_type = "danmaku") && !containsEmoji m.content)).map
          (mkChatRecord now_ms) := by
  intro msgs now_ms
  induction msgs with
  | nil => rfl
  | cons m rest ih =>
    by_cases hty : m.msg_type = "danmaku"
    · by_cases hem : containsEmoji m.content = true
      · simp [handle_payload, List.filter_cons, hty, hem] at ih ⊢
        exact ih
      · simp only [Bool.not_eq_true] at hem
        simp [handle_payload, List.filter_cons, hty, hem] at ih ⊢
        exact ih
    · simp [handle_payload, List.filter_cons, hty] at ih ⊢
      exact ih

theorem filterMap_some_eq_map {α β : Type} (f : α → β) :
    ∀ l : List α, l.filterMap (fun i => some (f i)) = l.map f := by
  intro l
  induction l with
  | nil => rfl
  | cons a rest ih => simp [List.filterMap_cons, ih]

/-- Claim C3 is false as stated: a source of probed duration 120 split at
interval 60 (with every extraction succeeding) yields
int(120 // 60) + 1 = 3 parts, not ceil(120/60) = 2. -/
theorem split_count_not_ceil :
    ¬ ((split "s" 120 60 (fun _ => true)).length
        = (⌈(120 : ℚ) / ((60 : Int) : ℚ)⌉).toNat) := by
  have hf : (⌊(120 : ℚ) / ((60 : Int) : ℚ)⌋) = 2 := by norm_num
  have hc : (⌈(120 : ℚ) / ((60 : Int) : ℚ)⌉) = 2 := by norm_num
  rw [split, if_neg (by norm_num), hf, hc]
  decide

/-- Claim C3 (amended): for probed duration D > 0 and split interval I > 0,
with every individual extraction succeeding, `split` produces exactly
int(D // I) + 1 = floor(D/I) + 1 parts (which equals ceil(D/I) except when
I divides D exactly, where it is one more), numbered sequentially from 0
with zero-padded indices, part i starting at offset i * I. -/
theorem split_part_layout (slug : String) (duration : ℚ) (split_interval : Int)
    (cmdOk : Nat → Bool) (hdur : 0 < duration) (hint : 0 < split_interval)
    (hok : ∀ i, cmdOk i = true) :
    (split slug duration split_interval cmdOk).length
        = (⌊duration / (split_interval : ℚ)⌋).toNat + 1 ∧
    (split slug duration split_interval cmdOk).map Part.index
        = List.range ((⌊duration / (split_interval : ℚ)⌋).toNat + 1) ∧
    ∀ p ∈ split slug duration split_interval cmdOk,
      p.start = (p.index : Int) * split_interval ∧ p.name = partName slug p.index := by
  have hnle : ¬ split_interval ≤ 0 := not_le.2 hint
  have hfun : (fun i => if cmdOk i
        then some (⟨i, (i : Int) * split_interval, partName slug i⟩ : Part) else none)
      = fun i => some (⟨i, (i : Int) * split_interval, partName slug i⟩ : Part) :=
    funext fun i => by simp [hok i]
  have hfm : split slug duration split_interval cmdOk
      = (List.range ((⌊duration / (split_interval : ℚ)⌋).toNat + 1)).map
          (fun i => (⟨i, (i : Int) * split_interval, partName slug i⟩ : Part)) := by
    rw [split, if_neg hnle]
    rw [hfun, filterMap_some_eq_map]
  refine ⟨?_, ?_, ?_⟩
  · rw [hfm]; simp
  · rw [hfm, List.map_map]
    have hcomp : (Part.index ∘ fun i =>
        (⟨i, (i : Int) * split_interval, partName slug i⟩ : Part)) = id := rfl
    rw [hcomp, List.map_id]
  · intro p hp
    rw [hfm] at hp
    obtain ⟨i, _, rfl⟩ := List.mem_map.1 hp
    exact ⟨rfl, rfl⟩

/-- Witness for C3 (amended) at duration 10 and interval 3600. -/
theorem split_part_layout_witness :
    (split "s" 10 3600 (fun _ => true)).length
        = (⌊(10 : ℚ) / ((3600 : Int) : ℚ)⌋).toNat + 1 :=
  (split_part_layout "s" 10 3600 (fun _ => true) (by norm_num) (by norm_num)
    (fun _ => rfl)).1

theorem parseLine_isSome (session_ms : ℚ) (l : JsonLine) :
    (parseLine session_ms l).isSome = validLine l := by
  cases l with
  | invalid => rfl
  | payload ty tx time =>
    by_cases hty : ty = "danmaku"
    · by_cases htx : tx.trim = ""
      · cases time <;> simp [parseLine, validLine, hty, htx]
      · cases time <;> simp [parseLine, validLine, hty, htx]
    · cases time <;> simp [parseLine, validLine, hty]

theorem parseLine_eq_some (session_ms : ℚ) (l : JsonLine) (r : ℚ × String)
    (h : parseLine session_ms l = some r) :
    ∃ ty tx t, l = JsonLine.payload ty tx (some t) ∧ ty = "danmaku" ∧ tx.trim ≠ "" ∧
      r = (if (t - session_ms) / 1000 < 0 then 0 else (t - session_ms) / 1000, tx.trim) := by
  cases l with
  | invalid => simp [parseLine] at h
  | payload ty tx time =>
    by_cases hty : ty = "danmaku"
    · by_cases htx : tx.trim = ""
      · cases time <;> simp [parseLine, hty, htx] at h
      · cases time with
        | none => simp [parseLine, hty, htx] at h
        | some t =>
          refine ⟨ty, tx, t, rfl, hty, htx, ?_⟩
          simp only [parseLine, hty, htx] at h
          simp at h
          exact h.symm
    · cases time <;> simp [parseLine, hty] at h

theorem dialoguesFrom_length (style : DanmuAssCfg) :
    ∀ (l : List (ℚ × String)) (i : Nat), (dialoguesFrom style i l).length = l.length := by
  intro l
  induction l with
  | nil => intro i; rfl
  | cons r rest ih => intro i; simp [dialoguesFrom, ih]

theorem dialoguesFrom_mem (style : DanmuAssCfg) :
    ∀ (l : List (ℚ × String)) (i : Nat) (d : Dialogue),
      d ∈ dialoguesFrom style i l →
      ∃ r ∈ l, d.start = r.1 ∧ d.text = escapeAss r.2 := by
  intro l
  induction l with
  | nil => intro i d h; simp [dialoguesFrom] at h
  | cons r rest ih =>
    intro i d h
    rw [dialoguesFrom] at h
    rcases List.mem_cons.1 h with h | h
    · exact ⟨r, List.mem_cons_self _ _, by rw [h]; exact rfl, by rw [h]; exact rfl⟩
    · obtain ⟨r2, hr2, hs, ht⟩ := ih (i + 1) d h
      exact ⟨r2, List.mem_cons_of_mem _ hr2, hs, ht⟩

theorem dialoguesFrom_pairwise (style : DanmuAssCfg) :
    ∀ (l : List (ℚ × String)) (i : Nat),
      List.Pairwise (fun a b => a.1 ≤ b.1) l →
      List.Pairwise (fun a b => a.start ≤ b.start) (dialoguesFrom style i l) := by
  intro l
  induction l with
  | nil => intro i _; exact List.Pairwise.nil
  | cons r rest ih =>
    intro i h
    rw [dialoguesFrom]
    rcases List.pairwise_cons.1 h with ⟨hhead, htail⟩
    refine List.pairwise_cons.2 ⟨?_, ih (i + 1) htail⟩
    intro d hd
    obtain ⟨r2, hr2, hs, _⟩ := dialoguesFrom_mem style rest (i + 1) d hd
    rw [hs]
    exact hhead r2 hr2

theorem dialoguesFrom_get (style : DanmuAssCfg) :
    ∀ (l : List (ℚ × String)) (i k : Nat) (hk : k < (dialoguesFrom style i l).length)
      (hk2 : k < l.length),
      (dialoguesFrom style i l).get ⟨k, hk⟩ = mkDialogue style (i + k) (l.get ⟨k, hk2⟩) := by
  intro l
  induction l with
  | nil => intro i k hk hk2; simp at hk2
  | cons r rest ih =>
    intro i k hk hk2
    cases k with
    | zero => simp [dialoguesFrom]
    | succ j =>
      have hk3 : j < (dialoguesFrom style (i + 1) rest).length := by
        rw [dialoguesFrom_length]
        exact Nat.lt_of_succ_lt_succ hk2
      have hk4 : j < rest.length := Nat.lt_of_succ_lt_succ hk2
      have harith : i + 1 + j = i + (j + 1) := by omega
      calc (dialoguesFrom style i (r :: rest)).get ⟨j + 1, hk⟩
        = (dialoguesFrom style (i + 1) rest).get ⟨j, hk3⟩ := rfl
      _ = mkDialogue style (i + 1 + j) (rest.get ⟨j, hk4⟩) := ih (i + 1) j hk3 hk4
      _ = mkDialogue style (i + (j + 1)) ((r :: rest).get ⟨j + 1, hk2⟩) := by rw [harith]; rfl

theorem records_isEmpty_iff_no_valid (lines : List JsonLine) (session_ms : ℚ) :
    (parseRecords lines session_ms).isEmpty = true ↔
      ¬ ∃ l ∈ lines, validLine l = true := by
  rw [List.isEmpty_iff, parseRecords, List.filterMap_eq_nil_iff]
  constructor
  · rintro h ⟨l, hl, hv⟩
    have := parseLine_isSome session_ms l
    rw [h l hl] at this
    rw [hv] at this
    simp at this
  · intro h l hl
    cases hp : parseLine session_ms l with
    | none => rfl
    | some r =>
      exfalso
      apply h
      refine ⟨l, hl, ?_⟩
      have := parseLine_isSome session_ms l
      rw [hp] at this
      simpa using this.symm

/-- Claim C6: subtitle rendering produces a non-empty output exactly when
at least one chat record has the danmaku kind, a non-empty stripped text
and a numeric timestamp; with zero valid records `jsonl_to_ass` produces
nothing and signals failure (returns none) to the caller. -/
theorem jsonl_to_ass_output_iff :
    ∀ (lines : List JsonLine) (session_ms : ℚ) (style : DanmuAssCfg),
      ((∃ l ∈ lines, validLine l = true) ↔
        ∃ ds, jsonl_to_ass lines session_ms style = some ds ∧ ds ≠ []) ∧
      (jsonl_to_ass lines session_ms style = none ↔
        ¬ ∃ l ∈ lines, validLine l = true) := by
  intro lines session_ms style
  cases hE : (parseRecords lines session_ms).isEmpty with
  | true =>
    have hval := (records_isEmpty_iff_no_valid lines session_ms).1 hE
    have hnone : jsonl_to_ass lines session_ms style = none := by
      simp [jsonl_to_ass, hE]
    constructor
    · constructor
      · intro h; exact absurd h hval
      · rintro ⟨ds, hds, _⟩; rw [hnone] at hds; exact absurd hds (by simp)
    · constructor
      · intro _; exact hval
      · intro _; exact hnone
  | false =>
    have hval : ∃ l ∈ lines, validLine l = true := by
      by_contra h
      rw [← records_isEmpty_iff_no_valid lines session_ms] at h
      rw [hE] at h
      exact absurd h (by simp)
    have hsome : jsonl_to_ass lines session_ms style
        = some (renderedDialogues lines session_ms style) := by
      simp [jsonl_to_ass, hE]
    have hne : renderedDialogues lines session_ms style ≠ [] := by
      have hlen : (renderedDialogues lines session_ms style).length
          = (parseRecords lines session_ms).length := by
        rw [renderedDialogues, dialoguesFrom_length, List.length_mergeSort]
      intro h
      rw [h] at hlen
      have hnil : (parseRecords lines session_ms) = [] := by
        cases hR : parseRecords lines session_ms with
        | nil => rfl
        | cons a l => rw [hR] at hlen; simp at hlen
      rw [hnil] at hE
      simp at hE
    constructor
    · constructor
      · intro _; exact ⟨renderedDialogues lines session_ms style, hsome, hne⟩
      · intro _; exact hval
    · constructor
      · intro h; rw [hsome] at h; exact absurd h (by simp)
      · intro h; exact absurd hval h

/-- Claim C7: in the rendered subtitle list, entries appear in
non-decreasing offset order (the records are sorted ascending by their
clamped session-relative offset), the k-th emitted entry's display row is
k mod row_count (for a positive configured row count), and every emitted
entry stems from a valid chat record with offset
(timestamp - session_ms) / 1000 clamped at 0 and its stripped, escaped
text. -/
theorem rendered_dialogues_spec (lines : List JsonLine) (session_ms : ℚ)
    (style : DanmuAssCfg) (hrc : 1 ≤ style.row_count) :
    List.Pairwise (fun a b => a.start ≤ b.start)
      (renderedDialogues lines session_ms style) ∧
    (∀ (k : Nat) (hk : k < (renderedDialogues lines session_ms style).length),
      ((renderedDialogues lines session_ms style).get ⟨k, hk⟩).row
        = (k : Int) % style.row_count) ∧
    (∀ d ∈ renderedDialogues lines session_ms style,
      ∃ ty tx t, JsonLine.payload ty tx (some t) ∈ lines ∧ ty = "danmaku" ∧
        tx.trim ≠ "" ∧
        d.start = (if (t - session_ms) / 1000 < 0 then 0 else (t - session_ms) / 1000) ∧
        d.text = escapeAss tx.trim) := by
  have hmax : max style.row_count 1 = style.row_count := max_eq_left hrc
  have hsorted : List.Pairwise (fun a b : ℚ × String => a.1 ≤ b.1)
      ((parseRecords lines session_ms).mergeSort (fun a b => decide (a.1 ≤ b.1))) := by
    have h := @List.sorted_mergeSort (ℚ × String)
      (fun a b => decide (a.1 ≤ b.1))
      (fun a b c hab hbc => by
        simp only [decide_eq_true_eq] at hab hbc ⊢
        exact le_trans hab hbc)
      (fun a b => by simpa using le_total a.1 b.1)
      (parseRecords lines session_ms)
    exact h.imp (fun hab => by simpa using hab)
  refine ⟨?_, ?_, ?_⟩
  · exact dialoguesFrom_pairwise style _ 0 hsorted
  · intro k hk
    have hk2 : k < ((parseRecords lines session_ms).mergeSort
        (fun a b => decide (a.1 ≤ b.1))).length := by
      have hlen := dialoguesFrom_length style ((parseRecords lines session_ms).mergeSort
        (fun a b => decide (a.1 ≤ b.1))) 0
      have hk3 : k < (dialoguesFrom style 0 ((parseRecords lines session_ms).mergeSort
        (fun a b => decide (a.1 ≤ b.1)))).length := hk
      omega
    have hgoal : (renderedDialogues lines session_ms style).get ⟨k, hk⟩
        = mkDialogue style (0 + k) (((parseRecords lines session_ms).mergeSort
            (fun a b => decide (a.1 ≤ b.1))).get ⟨k, hk2⟩) :=
      dialoguesFrom_get style _ 0 k hk hk2
    rw [hgoal]
    simp [mkDialogue, hmax]
  · intro d hd
    rw [renderedDialogues] at hd
    obtain ⟨r, hr, hs, ht⟩ := dialoguesFrom_mem style _ 0 d hd
    have hrR : r ∈ parseRecords lines session_ms := List.mem_mergeSort.1 hr
    obtain ⟨l, hl, hp⟩ := List.mem_filterMap.1 hrR
    obtain ⟨ty, tx, t, hlp, hty, htx, hrv⟩ := parseLine_eq_some session_ms l r hp
    refine ⟨ty, tx, t, by rw [← hlp]; exact hl, hty, htx, ?_, ?_⟩
    · rw [hs, hrv]
    · rw [ht, hrv]

/-- An ASS style with the source defaults (row_count = 12). -/
def assStyleExample : DanmuAssCfg :=
  ⟨1920, 1080, "Microsoft YaHei", 45, 6, 12, 40, 60, -200⟩

/-- Witness for C7 at a concrete chat log and the default style. -/
theorem rendered_dialogues_spec_witness :
    List.Pairwise (fun a b => a.start ≤ b.start)
      (renderedDialogues [JsonLine.payload "danmaku" "hi" (some 5000)] 0 assStyleExample) :=
  (rendered_dialogues_spec [JsonLine.payload "danmaku" "hi" (some 5000)] 0 assStyleExample
    (by norm_num [assStyleExample])).1

/-- Claim C10: `set_state` with the current state leaves both the state and
its entry timestamp unchanged; with a different state it updates both, so
state_since is updated exactly when the state changes. -/
theorem set_state_frame :
    ∀ (r : RunnerData) (s : RunnerState) (now : Nat),
      (r.state = s → set_state r s now = r) ∧
      (r.state ≠ s → (set_state r s now).state = s ∧ (set_state r s now).state_since = now) := by
  intro r s now
  constructor
  · intro h; simp [set_state, h]
  · intro h; simp [set_state, h]

end DDRec
